import Mathlib

/-!
Shallow embedding of the PINN dataset repository (DatasetWithAdepy).

Source files modelled here:
* `DatasetWithAdepy/sample.py`   — `sample_sparse_data`, the sparse sampler.
* `DatasetWithAdepy/simulate.py` — `create_contamination_scenario`, the field
  generator.

Modelling conventions:
* Machine floats become `ℚ` (the claims under scrutiny are about counts,
  membership, thresholds, ordering and exact zero values, none of which
  depends on float rounding).
* One CSV table becomes `List Row`.
* External libraries are black boxes: the seeded scipy `LatinHypercube`
  generator and the seeded pandas `DataFrame.sample` are fixed but unknown
  functions bundled in `ExtLib` (fixed seed 42 makes each a pure function of
  its arguments); the ambient *unseeded* numpy/pandas global RNG (used by
  `np.random.choice` backfill and by the uniform strategy's unseeded
  `bin_df.sample(1)`) is an explicit oracle `rng : ℕ → ℕ` giving the raw
  draws; `scipy.spatial.KDTree.query` is modelled by an exact
  nearest-neighbour search (first index wins on ties).
* Exceptions become error values; file writes become the returned output
  lists (one entry per written file).  Line 105's diagnostic print reads
  `x_min`/`x_max`/`y_min`/`y_max`, which only the lhs branch assigns, so for
  the random and uniform strategies the loop body raises `UnboundLocalError`
  right after its first successful write; the model keeps that abort.
-/

/-- One row of a concentration table: columns X坐标_m, Y坐标_m, 污染物浓度_mg/L. -/
structure Row where
  x : ℚ
  y : ℚ
  conc : ℚ
deriving DecidableEq, Repr

/-- Strategy names are character lists (Python strings). -/
def lhsStrat : List Char := ['l', 'h', 's']

def randomStrat : List Char := ['r', 'a', 'n', 'd', 'o', 'm']

def uniformStrat : List Char := ['u', 'n', 'i', 'f', 'o', 'r', 'm']

/-- The keyword arguments of `sample_sparse_data` that govern selection. -/
structure SampleConfig where
  sample_strategy : List Char
  sample_ratio : ℚ
  sample_num : Option ℕ
  min_concentration : ℚ
deriving DecidableEq, Repr

/-- Errors that abort a sampler invocation: the explicit `ValueError`s of
lines 96 and 24, and the `UnboundLocalError` raised by line 105's diagnostic
print, which interpolates `x_min`/`x_max`/`y_min`/`y_max` — locals assigned
only inside the lhs branch (lines 45-46). -/
inductive SampleErr where
  | badStrategy
  | badTimeToken
  | unboundLocal
deriving DecidableEq, Repr

/-- Observable outcome of one iteration of the per-file loop: skipped with a
warning, table written and loop continues, table written and then an
exception aborts the invocation, or an exception before anything is
written. -/
inductive SnapResult where
  | skip
  | wrote (out : List Row)
  | wroteAbort (out : List Row) (e : SampleErr)
  | abort (e : SampleErr)
deriving DecidableEq, Repr

/-- The table an iteration wrote to disk, if any. -/
def SnapResult.written : SnapResult → Option (List Row)
  | .skip => none
  | .wrote out => some out
  | .wroteAbort out _ => some out
  | .abort _ => none

/-- Equality of `Except` results is decidable when both components are. -/
instance {ε α : Type} [DecidableEq ε] [DecidableEq α] : DecidableEq (Except ε α) := fun a b =>
  match a, b with
  | .error e1, .error e2 =>
    if h : e1 = e2 then isTrue (by rw [h]) else isFalse (fun hc => h (Except.error.inj hc))
  | .error _, .ok _ => isFalse (fun hc => Except.noConfusion hc)
  | .ok _, .error _ => isFalse (fun hc => Except.noConfusion hc)
  | .ok a1, .ok a2 =>
    if h : a1 = a2 then isTrue (by rw [h]) else isFalse (fun hc => h (Except.ok.inj hc))

/-- The external seeded randomness: scipy `LatinHypercube(d=2, seed=42)`
(a fresh sampler is built for every file, so its output is a function of the
requested point count only) and pandas `DataFrame.sample(n, random_state=42)`
(a function of the population size and the requested count, returning the
chosen positional indices in their emitted order). -/
structure ExtLib where
  lhsRaw : ℕ → List (ℚ × ℚ)
  seededPerm : ℕ → ℕ → List ℕ

/-- The behaviour the external seeded libraries are documented to have. -/
structure LibOK (lib : ExtLib) : Prop where
  lhs_len : ∀ n, (lib.lhsRaw n).length = n
  perm_len : ∀ m n, n ≤ m → (lib.seededPerm m n).length = n
  perm_lt : ∀ m n i, i ∈ lib.seededPerm m n → i < m
  perm_nodup : ∀ m n, (lib.seededPerm m n).Nodup

/-- A concrete instantiation of the external libraries, used to evaluate the
model on closed inputs. -/
def defaultLib : ExtLib where
  lhsRaw := fun n => List.replicate n (0, 0)
  seededPerm := fun m n => (List.range m).take n

/-- `df_valid = df[df["污染物浓度_mg/L"] >= min_concentration]` (line 30). -/
def filterValid (minC : ℚ) (table : List Row) : List Row :=
  table.filter (fun r => decide (minC ≤ r.conc))

/-- Lines 36-40: `n_sample = min(sample_num, len(df_valid))` when a fixed
count is given, else `max(1, int(len(df_valid) * sample_ratio))`.  Python
`int` truncates toward zero, which on the `max 1` result agrees with
`Int.toNat ∘ Int.floor`. -/
def targetCount (cfg : SampleConfig) (nValid : ℕ) : ℕ :=
  match cfg.sample_num with
  | some k => min k nValid
  | none => max 1 (Int.toNat ⌊cfg.sample_ratio * (nValid : ℚ)⌋)

/-- Squared Euclidean distance, the quantity `KDTree.query` minimises. -/
def sqDist (p q : ℚ × ℚ) : ℚ :=
  (p.1 - q.1) ^ 2 + (p.2 - q.2) ^ 2

/-- Linear scan behind `nearestIdx`: `best` is the index of the closest
point seen so far, `bestD` its squared distance, `j` the index of the last
point scanned. -/
def nearestAux (p : ℚ × ℚ) : List (ℚ × ℚ) → ℕ → ℚ → ℕ → ℕ
  | [], best, _, _ => best
  | q :: qs, best, bestD, j =>
    if sqDist p q < bestD then nearestAux p qs (j + 1) (sqDist p q) (j + 1)
    else nearestAux p qs best bestD (j + 1)

/-- Index of the nearest point of `coords` to `p` (KDTree.query's answer);
the earliest index wins ties.  Returns 0 on an empty list (the source never
queries an empty tree: it is built from the nonempty `df_valid`). -/
def nearestIdx (coords : List (ℚ × ℚ)) (p : ℚ × ℚ) : ℕ :=
  match coords with
  | [] => 0
  | c :: cs => nearestAux p cs 0 (sqDist p c) 0

/-- Minimum of a column over a nonempty table (`Series.min`); 0 for an empty
table, which the source never reaches. -/
def colMin (f : Row → ℚ) : List Row → ℚ
  | [] => 0
  | r :: rs => rs.foldl (fun m r2 => min m (f r2)) (f r)

/-- Maximum of a column over a nonempty table (`Series.max`). -/
def colMax (f : Row → ℚ) : List Row → ℚ
  | [] => 0
  | r :: rs => rs.foldl (fun m r2 => max m (f r2)) (f r)

/-- Insert a value into a sorted duplicate-free list, keeping it sorted and
duplicate-free. -/
def insertUniq (a : ℕ) : List ℕ → List ℕ
  | [] => [a]
  | b :: bs =>
    if a < b then a :: b :: bs
    else if a = b then b :: bs
    else b :: insertUniq a bs

/-- `np.unique`: the sorted list of distinct values (line 62). -/
def npUnique (l : List ℕ) : List ℕ :=
  l.foldr insertUniq []

/-- `np.random.choice(cands, size=k, replace=False)` driven by the ambient
unseeded global RNG, modelled by the oracle `rng`: the `i`-th raw draw is
`rng i`, reduced mod the current candidate count; the chosen value is removed
before the next draw (choice without replacement).  The source only calls
this with duplicate-free candidate lists. -/
def drawWOR : (ℕ → ℕ) → List ℕ → ℕ → List ℕ
  | _, _, 0 => []
  | _, [], _ + 1 => []
  | rng, c :: cs, k + 1 =>
    let v := (c :: cs).getD (rng 0 % (c :: cs).length) 0
    v :: drawWOR (fun i => rng (i + 1)) ((c :: cs).erase v) k

/-- Lines 44-72 of sample.py: the Latin-hypercube branch, producing the
`final_indices` array.  `raw` points in [0,1)² come from the seeded scipy
sampler, are affinely mapped into the bounding box of the valid rows, matched
to nearest valid rows, deduplicated with `np.unique`, then truncated to `n`
or backfilled by unseeded choice without replacement from the unselected
indices. -/
def lhsIndices (lib : ExtLib) (rng : ℕ → ℕ) (dfValid : List Row) (n : ℕ) : List ℕ :=
  let xmin := colMin (fun r => r.x) dfValid
  let xmax := colMax (fun r => r.x) dfValid
  let ymin := colMin (fun r => r.y) dfValid
  let ymax := colMax (fun r => r.y) dfValid
  let mapped := (lib.lhsRaw n).map
    (fun q => (xmin + q.1 * (xmax - xmin), ymin + q.2 * (ymax - ymin)))
  let coords := dfValid.map (fun r => (r.x, r.y))
  let idxs := mapped.map (nearestIdx coords)
  let uniq := npUnique idxs
  if uniq.length < n then
    uniq ++ drawWOR rng
      ((List.range dfValid.length).filter (fun i => !(uniq.contains i))) (n - uniq.length)
  else
    uniq.take n

/-- Line 75: `df_sample = df_valid.iloc[final_indices]`. -/
def lhsSelect (lib : ExtLib) (rng : ℕ → ℕ) (dfValid : List Row) (n : ℕ) : List Row :=
  (lhsIndices lib rng dfValid n).filterMap (fun i => dfValid.get? i)

/-- Line 79: `df_valid.sample(n=n_sample, random_state=42)` — the seeded
pandas sampler picks positional indices as a pure function of the population
size and `n`. -/
def randomSelect (lib : ExtLib) (dfValid : List Row) (n : ℕ) : List Row :=
  (lib.seededPerm dfValid.length n).filterMap (fun i => dfValid.get? i)

/-- `pd.cut(series, bins=k, labels=False)` for one value: equal-width bins
over `[mn, mx]`, right-closed, with the left edge nudged down so the minimum
lands in bin 0; the bin of `v` is the least `i < k` with
`v ≤ mn + (i+1)·(mx-mn)/k`. -/
def binIdx (k : ℕ) (mn mx v : ℚ) : ℕ :=
  ((List.range k).find?
    (fun i : ℕ => decide (v ≤ mn + ((i : ℚ) + 1) * (mx - mn) / (k : ℚ)))).getD (k - 1)

/-- `Series.unique`: distinct values in order of first appearance. -/
def dedupFirstAux (seen : List ℕ) : List ℕ → List ℕ
  | [] => []
  | a :: as2 =>
    if a ∈ seen then dedupFirstAux seen as2
    else a :: dedupFirstAux (a :: seen) as2

def dedupFirst (l : List ℕ) : List ℕ :=
  dedupFirstAux [] l

/-- x-bin label of a row (lines 81-82). -/
def xBinOf (dfValid : List Row) (k : ℕ) (r : Row) : ℕ :=
  binIdx k (colMin (fun s => s.x) dfValid) (colMax (fun s => s.x) dfValid) r.x

/-- y-bin label of a row (line 83). -/
def yBinOf (dfValid : List Row) (k : ℕ) (r : Row) : ℕ :=
  binIdx k (colMin (fun s => s.y) dfValid) (colMax (fun s => s.y) dfValid) r.y

/-- The `(xb, yb)` pairs in the order the nested loops of lines 85-93 visit
them: `df_valid["x_bin"].unique()` outer, `df_valid["y_bin"].unique()` inner. -/
def uniformBins (dfValid : List Row) (n : ℕ) : List (ℕ × ℕ) :=
  let k := Nat.sqrt n
  (dedupFirst (dfValid.map (xBinOf dfValid k))).flatMap
    (fun xb => (dedupFirst (dfValid.map (yBinOf dfValid k))).map (fun yb => (xb, yb)))

/-- `bin_df = df_valid[(x_bin == xb) & (y_bin == yb)]` (line 87). -/
def uniformBinRows (dfValid : List Row) (n : ℕ) (b : ℕ × ℕ) : List Row :=
  let k := Nat.sqrt n
  dfValid.filter (fun r => decide (xBinOf dfValid k r = b.1) && decide (yBinOf dfValid k r = b.2))

/-- Number of `(xb, yb)` bins holding at least one valid row. -/
def nonEmptyBinCount (dfValid : List Row) (n : ℕ) : ℕ :=
  (uniformBins dfValid n).countP (fun b => !(uniformBinRows dfValid n b).isEmpty)

/-- The nested loops of lines 84-93: for each bin in order, if it is
nonempty, draw one of its rows with the *unseeded* `bin_df.sample(1)` (one
raw draw from the ambient RNG oracle, reduced mod the bin size); after each
bin, break out of both loops once `n` selections have been made. -/
def uniformGo (rng : ℕ → ℕ) (c : ℕ) (pick : ℕ × ℕ → List Row) (n : ℕ)
    (acc : List Row) : List (ℕ × ℕ) → List Row
  | [] => acc
  | b :: rest =>
    let binRows := pick b
    let acc2 :=
      if binRows.isEmpty then acc
      else acc ++ [binRows.getD (rng c % binRows.length) ⟨0, 0, 0⟩]
    let c2 := if binRows.isEmpty then c else c + 1
    if n ≤ acc2.length then acc2 else uniformGo rng c2 pick n acc2 rest

/-- Lines 80-94: the uniform (grid-binned) strategy. -/
def uniformSelect (rng : ℕ → ℕ) (dfValid : List Row) (n : ℕ) : List Row :=
  uniformGo rng 0 (uniformBinRows dfValid n) n [] (uniformBins dfValid n)

/-- Lines 27-105 of sample.py, for one snapshot.  A snapshot with no valid
rows is skipped with a warning (lines 32-34).  Otherwise the strategy
dispatch runs: an unknown strategy raises before anything is written (line
96); a known strategy writes the selected table (line 100) and then prints
the diagnostics of lines 103-105.  Line 105 interpolates `x_min`, `x_max`,
`y_min`, `y_max`, locals assigned only inside the lhs branch (lines 45-46),
so under the random and uniform strategies that print raises
`UnboundLocalError` right after the write and aborts the invocation, while
under lhs the loop continues. -/
def processSnapshot (lib : ExtLib) (rng : ℕ → ℕ) (cfg : SampleConfig)
    (table : List Row) : SnapResult :=
  let dfValid := filterValid cfg.min_concentration table
  if dfValid.length = 0 then .skip
  else
    let n := targetCount cfg dfValid.length
    if cfg.sample_strategy = lhsStrat then
      .wrote (lhsSelect lib rng dfValid n)
    else if cfg.sample_strategy = randomStrat then
      .wroteAbort (randomSelect lib dfValid n) .unboundLocal
    else if cfg.sample_strategy = uniformStrat then
      .wroteAbort (uniformSelect rng dfValid n) .unboundLocal
    else
      .abort .badStrategy

/-- Observable outcome of one `sample_sparse_data` invocation: the output
tables written (in order), the number of skip warnings printed, and the
uncaught exception if one aborted the loop. -/
structure RunResult where
  outputs : List (List Row)
  warnings : ℕ
  err : Option SampleErr
deriving DecidableEq, Repr

/-- The per-file loop of lines 26-105.  Snapshot `i` of the remaining list
draws its unseeded randomness from the oracle `rngs i`.  An uncaught
exception aborts the whole loop; tables already written stay on disk, so an
abort right after a write leaves that table as the invocation's only
output. -/
def runSampler (lib : ExtLib) (rngs : ℕ → ℕ → ℕ) (cfg : SampleConfig) :
    List (List Row) → RunResult
  | [] => ⟨[], 0, none⟩
  | t :: rest =>
    match processSnapshot lib (rngs 0) cfg t with
    | .skip =>
      let r := runSampler lib (fun i => rngs (i + 1)) cfg rest
      ⟨r.outputs, r.warnings + 1, r.err⟩
    | .wrote out =>
      let r := runSampler lib (fun i => rngs (i + 1)) cfg rest
      ⟨out :: r.outputs, r.warnings, r.err⟩
    | .wroteAbort out e => ⟨[out], 0, some e⟩
    | .abort e => ⟨[], 0, some e⟩

/-!
### Field generator (`DatasetWithAdepy/simulate.py`)
-/

/-- The keyword arguments of `create_contamination_scenario` that feed the
concentration computation. -/
structure ScenarioConfig where
  Kαα : ℚ
  Kββ : ℚ
  θ : ℚ
  αL : ℚ
  αT : ℚ
  x_range : ℚ × ℚ
  y_range : ℚ × ℚ
  grid_num : ℕ
  sources : List (ℚ × ℚ)
  c0_list : List ℚ
  Qa_list : List ℚ
  stress_cycle_d : ℚ
  obs_times : List ℚ
deriving DecidableEq, Repr

/-- Errors raised by the generator's validation block (lines 48-51). -/
inductive ScenarioErr where
  | c0LenMismatch
  | qaLenMismatch
deriving DecidableEq, Repr

/-- The external analytical solver `adepy.uniform.point2`, a black-box pure
function of `(x, y, t, v, al, ah, n, xc, yc, Qa, c0)`, applied elementwise
over the grid by numpy broadcasting. -/
def Point2Fn : Type :=
  ℚ → ℚ → ℚ → ℚ → ℚ → ℚ → ℚ → ℚ → ℚ → ℚ → ℚ → ℚ

/-- Lines 100-115: the concentration at one grid point and one observation
time.  Time zero is the all-zero field with no solver call; otherwise the
per-source solver values (each with its own `xc, yc, Qa, c0`) are accumulated
by `total_conc += ...` starting from zeros; `v = Kαα/θ` (line 98). -/
def totalConcAt (p2 : Point2Fn) (cfg : ScenarioConfig) (t x y : ℚ) : ℚ :=
  if t = 0 then 0
  else
    ((cfg.sources.zip cfg.c0_list).zip cfg.Qa_list).foldl
      (fun acc sq =>
        acc + p2 x y t (cfg.Kαα / cfg.θ) cfg.αL cfg.αT cfg.θ sq.1.1.1 sq.1.1.2 sq.2 sq.1.2)
      0

/-- `np.linspace(a, b, num)`. -/
def linspace (a b : ℚ) (num : ℕ) : List ℚ :=
  (List.range num).map
    (fun j : ℕ => if num ≤ 1 then a else a + (j : ℚ) * (b - a) / ((num : ℚ) - 1))

/-- Lines 93-95 and 128-135: the flattened (X, Y, concentration) table for
one observation time, in `meshgrid` row-major flatten order (y outer, x
inner). -/
def fieldTable (p2 : Point2Fn) (cfg : ScenarioConfig) (t : ℚ) : List Row :=
  (linspace cfg.y_range.1 cfg.y_range.2 cfg.grid_num).flatMap
    (fun y => (linspace cfg.x_range.1 cfg.x_range.2 cfg.grid_num).map
      (fun x => ⟨x, y, totalConcAt p2 cfg t x y⟩))

/-- The files `create_contamination_scenario` writes: the parameter log, one
CSV table and one contour plot per observation time, and the summary plot. -/
structure ScenarioOutput where
  paramLog : ScenarioConfig
  tables : List (ℚ × List Row)
  plotTimes : List ℚ
  summaryWritten : Bool
deriving DecidableEq, Repr

/-- `create_contamination_scenario` (simulate.py lines 8-209): the length
validation of lines 48-51 runs first; only when it passes are the parameter
log, per-time tables, per-time plots and summary plot produced. -/
def create_contamination_scenario (p2 : Point2Fn) (cfg : ScenarioConfig) :
    Except ScenarioErr ScenarioOutput :=
  if cfg.c0_list.length ≠ cfg.sources.length then .error .c0LenMismatch
  else if cfg.Qa_list.length ≠ cfg.sources.length then .error .qaLenMismatch
  else .ok
    { paramLog := cfg
      tables := cfg.obs_times.map (fun t => (t, fieldTable p2 cfg t))
      plotTimes := cfg.obs_times
      summaryWritten := true }

/-!
### File discovery and ordering (`sample.py` lines 20-26)
-/

/-- The fixed filename prefix 全局浓度_ (global concentration). -/
def gcPrefChars : List Char := ['全', '局', '浓', '度', '_']

/-- The extension `.csv`. -/
def csvSufChars : List Char := ['.', 'c', 's', 'v']

/-- The token 天.csv removed before integer parsing (line 24). -/
def tianCsvChars : List Char := ['天', '.', 'c', 's', 'v']

/-- Line 23's membership test: `f.startswith("全局浓度_") and f.endswith(".csv")`. -/
def matchesGc (f : List Char) : Bool :=
  gcPrefChars.isPrefixOf f && csvSufChars.isSuffixOf f

/-- Python `str.split(sep)` for a single-character separator. -/
def splitOnChar (sep : Char) : List Char → List (List Char)
  | [] => [[]]
  | c :: cs =>
    let rest := splitOnChar sep cs
    if c = sep then [] :: rest
    else
      match rest with
      | [] => [[c]]
      | seg :: segs => (c :: seg) :: segs

/-- Recursion core of `deleteAll`, structural on a fuel argument so that it
evaluates inside the kernel; every step strictly shrinks the string, so fuel
equal to the string length never runs out. -/
def deleteAllFuel (pat : List Char) : ℕ → List Char → List Char
  | 0, s => s
  | _ + 1, [] => []
  | fuel + 1, c :: rest =>
    if pat ≠ [] ∧ pat.isPrefixOf (c :: rest) then
      deleteAllFuel pat fuel ((c :: rest).drop pat.length)
    else
      c :: deleteAllFuel pat fuel rest

/-- Python `str.replace(pat, "")`: delete all non-overlapping occurrences of
a nonempty pattern, scanning left to right. -/
def deleteAll (pat : List Char) (s : List Char) : List Char :=
  deleteAllFuel pat s.length s

/-- Python `int(str)`: optional surrounding spaces, an optional sign, then a
nonempty run of decimal digits. -/
def pyInt (s : List Char) : Option Int :=
  let t := (s.dropWhile (fun c => c = ' ')).reverse.dropWhile (fun c => c = ' ') |>.reverse
  let core : List Char → Option Int := fun ds =>
    if ds = [] ∨ ¬ ds.all Char.isDigit then none
    else some (ds.foldl (fun acc c => acc * 10 + ((c.toNat : Int) - 48)) 0)
  match t with
  | '-' :: ds => (core ds).map (fun v => -v)
  | '+' :: ds => core ds
  | ds => core ds

/-- Line 24's sort key: `int(f.split("_")[1].replace("天.csv", ""))`;
`none` models the `ValueError`/`IndexError` that aborts the invocation. -/
def timeKey (f : List Char) : Option Int :=
  match (splitOnChar '_' f).get? 1 with
  | none => none
  | some tok => pyInt (deleteAll tianCsvChars tok)

/-- The sort key value used to order two matching files (both keys parse in
the branch where this is used). -/
def keyLE (a b : List Char) : Prop :=
  (timeKey a).getD 0 ≤ (timeKey b).getD 0

instance : DecidableRel keyLE := fun a b =>
  inferInstanceAs (Decidable (_ ≤ _))

instance : IsTotal (List Char) keyLE :=
  ⟨fun a b => le_total _ _⟩

instance : IsTrans (List Char) keyLE :=
  ⟨fun _ _ _ h1 h2 => le_trans h1 h2⟩

/-- Lines 23-24: keep the matching filenames and sort them by embedded time
(Python's `list.sort(key=...)` is a stable ascending sort; it evaluates the
key of every element, so one unparsable token aborts the call). -/
def listGcFiles (files : List (List Char)) : Except SampleErr (List (List Char)) :=
  let fs := files.filter matchesGc
  if fs.all (fun f => (timeKey f).isSome) then
    .ok (fs.insertionSort keyLE)
  else
    .error .badTimeToken

/-- The whole `sample_sparse_data` invocation, starting from the directory
listing: a pair (filename, table) per file on disk.  The sort of line 24 runs
before the per-file loop, so a bad time token yields no output at all. -/
def sample_sparse_data (lib : ExtLib) (rngs : ℕ → ℕ → ℕ) (cfg : SampleConfig)
    (dir : List (List Char × List Row)) : RunResult :=
  match listGcFiles (dir.map Prod.fst) with
  | .error e => ⟨[], 0, some e⟩
  | .ok fs =>
    runSampler lib rngs cfg
      (fs.map (fun f => ((dir.find? (fun p => p.1 = f)).map Prod.snd).getD []))


/-!
### Concrete instances used to evaluate the model on closed inputs
-/

/-- A demo black-box solver: returns the source concentration unchanged. -/
def p2Demo : Point2Fn := fun _ _ _ _ _ _ _ _ _ _ c0 => c0

/-- A second demo solver, used to witness solver-independence at time zero. -/
def p2DemoShift : Point2Fn := fun x _ _ _ _ _ _ _ _ _ c0 => c0 + x

/-- A small two-source scenario on a 2×2 grid with observation times 0 and 3. -/
def cfgGenDemo : ScenarioConfig :=
  ⟨1, 0, 1, 1, 1, (0, 1), (0, 1), 2, [(0, 0), (1, 1)], [5, 7], [1, 2], 10, [0, 3]⟩

/-- The output `create_contamination_scenario` produces for `cfgGenDemo`. -/
def outGenDemo : ScenarioOutput :=
  { paramLog := cfgGenDemo
    tables := cfgGenDemo.obs_times.map (fun t => (t, fieldTable p2Demo cfgGenDemo t))
    plotTimes := cfgGenDemo.obs_times
    summaryWritten := true }

/-- A three-row snapshot with all concentrations 1, at x = 0, 1, 2. -/
def tbl3 : List Row := [⟨0, 0, 1⟩, ⟨1, 0, 1⟩, ⟨2, 0, 1⟩]


/-- The filename 全局浓度_30天.csv. -/
def fileGc30 : List Char := gcPrefChars ++ ['3', '0'] ++ tianCsvChars

/-- The filename 全局浓度_1天.csv. -/
def fileGc1 : List Char := gcPrefChars ++ ['1'] ++ tianCsvChars

/-- The filename 全局浓度_a天.csv, whose time token is not an integer. -/
def fileGcBad : List Char := gcPrefChars ++ ['a'] ++ tianCsvChars

/-- A directory with two matching snapshots (listed out of time order) and
one non-matching file. -/
def dirGood : List (List Char × List Row) :=
  [(fileGc30, tbl3), (['x'], []), (fileGc1, [⟨0, 0, 5⟩])]

/-- A directory containing a matching filename with a bad time token. -/
def dirBad : List (List Char × List Row) :=
  [(fileGc30, tbl3), (fileGcBad, [⟨0, 0, 5⟩])]

/-- A demo sampler configuration: Latin-hypercube strategy, fixed count 2,
threshold 0. -/
def cfgLhsDemo : SampleConfig := ⟨lhsStrat, 1/100, some 2, 0⟩

/-!
### Helper lemmas
-/

theorem getD_mem_of_lt {l : List ℕ} {n : ℕ} (d : ℕ) (h : n < l.length) :
    l.getD n d ∈ l := by
  rw [List.getD_eq_getElem l d h]
  exact List.getElem_mem h

theorem filterMap_get?_length (l : List Row) (idxs : List ℕ)
    (h : ∀ i ∈ idxs, i < l.length) :
    (idxs.filterMap (fun i => l.get? i)).length = idxs.length := by
  induction idxs with
  | nil => rfl
  | cons i is ih =>
    have hi : i < l.length := h i (List.mem_cons_self i is)
    have : l.get? i = some (l.get ⟨i, hi⟩) := List.get?_eq_some.mpr ⟨hi, rfl⟩
    simp only [List.filterMap_cons, this, List.length_cons]
    rw [ih (fun j hj => h j (List.mem_cons_of_mem i hj))]

theorem mem_filterMap_get? {l : List Row} {idxs : List ℕ} {r : Row}
    (h : r ∈ idxs.filterMap (fun i => l.get? i)) : r ∈ l := by
  rcases List.mem_filterMap.mp h with ⟨i, _, hi⟩
  rcases List.get?_eq_some.mp hi with ⟨hlt, hget⟩
  exact hget ▸ List.get_mem l i hlt

theorem mem_insertUniq {a x : ℕ} : ∀ {l : List ℕ}, x ∈ insertUniq a l ↔ x = a ∨ x ∈ l
  | [] => by simp [insertUniq]
  | b :: bs => by
    simp only [insertUniq]
    split
    · simp [or_comm, or_assoc, or_left_comm]
    · split
      · rename_i hab
        subst hab
        simp only [List.mem_cons]
        tauto
      · simp only [List.mem_cons, mem_insertUniq (l := bs)]
        tauto

theorem sorted_insertUniq {a : ℕ} :
    ∀ {l : List ℕ}, l.Sorted (· < ·) → (insertUniq a l).Sorted (· < ·)
  | [], _ => by simp [insertUniq]
  | b :: bs, h => by
    rcases List.sorted_cons.mp h with ⟨hb, hbs⟩
    simp only [insertUniq]
    split
    · rename_i hab
      exact List.sorted_cons.mpr
        ⟨by
          intro x hx
          rcases List.mem_cons.mp hx with hxb | hxbs
          · exact hxb ▸ hab
          · exact lt_trans hab (hb x hxbs), h⟩
    · split
      · exact h
      · rename_i h1 h2
        have hba : b < a := by omega
        exact List.sorted_cons.mpr
          ⟨by
            intro x hx
            rcases mem_insertUniq.mp hx with hxa | hxbs
            · exact hxa ▸ hba
            · exact hb x hxbs, sorted_insertUniq hbs⟩

theorem sorted_npUnique (l : List ℕ) : (npUnique l).Sorted (· < ·) := by
  induction l with
  | nil => simp [npUnique]
  | cons a as ih => exact sorted_insertUniq ih

theorem nodup_npUnique (l : List ℕ) : (npUnique l).Nodup :=
  (sorted_npUnique l).nodup

theorem mem_npUnique {x : ℕ} : ∀ {l : List ℕ}, x ∈ npUnique l ↔ x ∈ l
  | [] => Iff.rfl
  | a :: as => by
    show x ∈ insertUniq a (npUnique as) ↔ _
    rw [mem_insertUniq, mem_npUnique (l := as), List.mem_cons]

theorem length_insertUniq (a : ℕ) : ∀ (l : List ℕ), (insertUniq a l).length ≤ l.length + 1
  | [] => by simp [insertUniq]
  | b :: bs => by
    simp only [insertUniq]
    split
    · simp
    · split
      · simp
      · simpa using Nat.succ_le_succ (length_insertUniq a bs)

theorem length_npUnique (l : List ℕ) : (npUnique l).length ≤ l.length := by
  induction l with
  | nil => simp [npUnique]
  | cons a as ih =>
    calc (insertUniq a (npUnique as)).length ≤ (npUnique as).length + 1 :=
          length_insertUniq a (npUnique as)
    _ ≤ as.length + 1 := Nat.succ_le_succ ih

theorem length_drawWOR : ∀ (k : ℕ) (rng : ℕ → ℕ) (cands : List ℕ),
    (drawWOR rng cands k).length = min k cands.length
  | 0, _, _ => by simp [drawWOR]
  | k + 1, rng, [] => by simp [drawWOR]
  | k + 1, rng, c :: cs => by
    have hv : (c :: cs).getD (rng 0 % (c :: cs).length) 0 ∈ c :: cs :=
      getD_mem_of_lt 0 (Nat.mod_lt (rng 0) (Nat.succ_pos cs.length))
    show ((c :: cs).getD (rng 0 % (c :: cs).length) 0 ::
        drawWOR (fun i => rng (i + 1))
          ((c :: cs).erase ((c :: cs).getD (rng 0 % (c :: cs).length) 0)) k).length
      = min (k + 1) (c :: cs).length
    rw [List.length_cons, length_drawWOR k, List.length_erase, if_pos hv]
    simp only [List.length_cons]
    omega

theorem drawWOR_subset : ∀ (k : ℕ) (rng : ℕ → ℕ) (cands : List ℕ) (x : ℕ),
    x ∈ drawWOR rng cands k → x ∈ cands
  | 0, _, _, _ => by simp [drawWOR]
  | k + 1, rng, [], _ => by simp [drawWOR]
  | k + 1, rng, c :: cs, x => by
    intro hmem
    have hmem2 : x = (c :: cs).getD (rng 0 % (c :: cs).length) 0 ∨
        x ∈ drawWOR (fun i => rng (i + 1))
          ((c :: cs).erase ((c :: cs).getD (rng 0 % (c :: cs).length) 0)) k :=
      List.mem_cons.mp hmem
    rcases hmem2 with hx | hx
    · exact hx ▸ getD_mem_of_lt 0 (Nat.mod_lt (rng 0) (Nat.succ_pos cs.length))
    · exact List.erase_subset _ _ (drawWOR_subset k _ _ x hx)

theorem nodup_drawWOR : ∀ (k : ℕ) (rng : ℕ → ℕ) (cands : List ℕ),
    cands.Nodup → (drawWOR rng cands k).Nodup
  | 0, _, _, _ => by simp [drawWOR]
  | k + 1, rng, [], _ => by simp [drawWOR]
  | k + 1, rng, c :: cs, h => by
    show ((c :: cs).getD (rng 0 % (c :: cs).length) 0 ::
        drawWOR (fun i => rng (i + 1))
          ((c :: cs).erase ((c :: cs).getD (rng 0 % (c :: cs).length) 0)) k).Nodup
    refine List.nodup_cons.mpr ⟨?_, nodup_drawWOR k _ _ (h.erase _)⟩
    intro hmem
    have := drawWOR_subset k _ _ _ hmem
    exact ((h.mem_erase_iff).mp this).1 rfl

theorem contains_true_mem {u : List ℕ} {x : ℕ} (h : u.contains x = true) : x ∈ u := by
  simpa using h

theorem not_contains_not_mem {u : List ℕ} {x : ℕ} (h : (!(u.contains x)) = true) : x ∉ u := by
  simpa using h

theorem nearestAux_le (p : ℚ × ℚ) :
    ∀ (cs : List (ℚ × ℚ)) (b : ℕ) (d : ℚ) (j : ℕ), b ≤ j →
      nearestAux p cs b d j ≤ j + cs.length
  | [], b, d, j, h => by simpa [nearestAux] using h
  | q :: qs, b, d, j, h => by
    simp only [nearestAux, List.length_cons]
    split
    · have := nearestAux_le p qs (j + 1) (sqDist p q) (j + 1) le_rfl
      omega
    · have := nearestAux_le p qs b d (j + 1) (le_trans h (Nat.le_succ j))
      omega

theorem nearestIdx_lt {coords : List (ℚ × ℚ)} (h : coords ≠ []) (p : ℚ × ℚ) :
    nearestIdx coords p < coords.length := by
  match coords, h with
  | c :: cs, _ =>
    have hb := nearestAux_le p cs 0 (sqDist p c) 0 le_rfl
    simp only [nearestIdx, List.length_cons]
    omega

theorem length_filter_not_contains_ge (u : List ℕ) (m : ℕ) (hu : u.Nodup) :
    m - u.length ≤ ((List.range m).filter (fun i => !(u.contains i))).length := by
  have hperm := List.filter_append_perm (fun i => u.contains i) (List.range m)
  have hlen := hperm.length_eq
  rw [List.length_append, List.length_range] at hlen
  have hrfl : ((List.range m).filter (fun x => !(fun i => u.contains i) x)) =
      ((List.range m).filter (fun i => !(u.contains i))) := rfl
  rw [hrfl] at hlen
  have hsub : ((List.range m).filter (fun i => u.contains i)) ⊆ u := by
    intro x hx
    exact contains_true_mem (List.mem_filter.mp hx).2
  have hle : ((List.range m).filter (fun i => u.contains i)).length ≤ u.length :=
    (List.subperm_of_subset ((List.nodup_range m).filter _) hsub).length_le
  omega

theorem lhsIndices_nodup (lib : ExtLib) (rng : ℕ → ℕ) (dfValid : List Row) (n : ℕ) :
    (lhsIndices lib rng dfValid n).Nodup := by
  simp only [lhsIndices]
  split
  · refine List.nodup_append.mpr ⟨nodup_npUnique _, nodup_drawWOR _ _ _
      ((List.nodup_range _).filter _), ?_⟩
    intro x hx hx2
    have hcand := drawWOR_subset _ _ _ _ hx2
    exact not_contains_not_mem (List.mem_filter.mp hcand).2 hx
  · exact List.Nodup.sublist (List.take_sublist _ _) (nodup_npUnique _)

theorem lhsIndices_lt {dfValid : List Row} (h : dfValid ≠ []) (lib : ExtLib)
    (rng : ℕ → ℕ) (n : ℕ) :
    ∀ i ∈ lhsIndices lib rng dfValid n, i < dfValid.length := by
  have hmemu : ∀ i ∈ npUnique (((lib.lhsRaw n).map
      (fun q => (colMin (fun r => r.x) dfValid + q.1 *
          (colMax (fun r => r.x) dfValid - colMin (fun r => r.x) dfValid),
        colMin (fun r => r.y) dfValid + q.2 *
          (colMax (fun r => r.y) dfValid - colMin (fun r => r.y) dfValid)))).map
      (nearestIdx (dfValid.map (fun r => (r.x, r.y))))),
      i < dfValid.length := by
    intro i hi
    have := mem_npUnique.mp hi
    rcases List.mem_map.mp this with ⟨pt, _, hpt⟩
    have hne : dfValid.map (fun r => (r.x, r.y)) ≠ [] := by
      simpa [List.map_eq_nil_iff] using h
    have := nearestIdx_lt hne pt
    rw [List.length_map] at this
    omega
  intro i hi
  simp only [lhsIndices] at hi
  split at hi
  · rcases List.mem_append.mp hi with hiu | hid
    · exact hmemu i hiu
    · have := drawWOR_subset _ _ _ _ hid
      have := (List.mem_filter.mp this).1
      exact List.mem_range.mp this
  · exact hmemu i ((List.take_sublist _ _).subset hi)

theorem append_backfill_length {u : List ℕ} {m n : ℕ} (hu : u.Nodup)
    (hlen : u.length < n) (hn : n ≤ m) (rng : ℕ → ℕ) :
    (u ++ drawWOR rng ((List.range m).filter (fun i => !(u.contains i)))
      (n - u.length)).length = n := by
  rw [List.length_append, length_drawWOR]
  have := length_filter_not_contains_ge u m hu
  have := List.length_filter_le (fun i => !(u.contains i)) (List.range m)
  omega

theorem lhsIndices_length {dfValid : List Row} (h : dfValid ≠ []) (lib : ExtLib)
    (rng : ℕ → ℕ) {n : ℕ} (hraw : (lib.lhsRaw n).length = n)
    (hn : n ≤ dfValid.length) :
    (lhsIndices lib rng dfValid n).length = n := by
  simp only [lhsIndices]
  split
  · rename_i hlt
    exact append_backfill_length (nodup_npUnique _) hlt hn rng
  · rename_i hge
    rw [List.length_take]
    omega

theorem lhsSelect_length {dfValid : List Row} (h : dfValid ≠ []) (lib : ExtLib)
    (rng : ℕ → ℕ) {n : ℕ} (hraw : (lib.lhsRaw n).length = n)
    (hn : n ≤ dfValid.length) :
    (lhsSelect lib rng dfValid n).length = n := by
  unfold lhsSelect
  rw [filterMap_get?_length _ _ (lhsIndices_lt h lib rng n),
    lhsIndices_length h lib rng hraw hn]

theorem lhsSelect_subset (lib : ExtLib) (rng : ℕ → ℕ) (dfValid : List Row) (n : ℕ) :
    ∀ r ∈ lhsSelect lib rng dfValid n, r ∈ dfValid := by
  intro r hr
  exact mem_filterMap_get? hr

theorem randomSelect_length {lib : ExtLib} (hlib : LibOK lib) (dfValid : List Row)
    {n : ℕ} (hn : n ≤ dfValid.length) :
    (randomSelect lib dfValid n).length = n := by
  unfold randomSelect
  rw [filterMap_get?_length _ _ (fun i hi => hlib.perm_lt _ _ i hi),
    hlib.perm_len _ _ hn]

theorem randomSelect_subset (lib : ExtLib) (dfValid : List Row) (n : ℕ) :
    ∀ r ∈ randomSelect lib dfValid n, r ∈ dfValid := by
  intro r hr
  exact mem_filterMap_get? hr

theorem uniformGo_length (rng : ℕ → ℕ) (pick : ℕ × ℕ → List Row) (n : ℕ) :
    ∀ (ps : List (ℕ × ℕ)) (c : ℕ) (acc : List Row), acc.length < n →
      (uniformGo rng c pick n acc ps).length =
        min n (acc.length + ps.countP (fun b => !(pick b).isEmpty))
  | [], c, acc, h => by
    simp only [uniformGo, List.countP_nil]
    omega
  | b :: rest, c, acc, h => by
    by_cases hb : (pick b).isEmpty = true
    · have hcnt : List.countP (fun b2 => !(pick b2).isEmpty) (b :: rest)
          = List.countP (fun b2 => !(pick b2).isEmpty) rest :=
        List.countP_cons_of_neg _ _ (by simp [hb])
      simp only [uniformGo, if_pos hb]
      rw [if_neg (by omega : ¬ n ≤ acc.length), hcnt,
        uniformGo_length rng pick n rest c acc h]
    · have hcnt : List.countP (fun b2 => !(pick b2).isEmpty) (b :: rest)
          = List.countP (fun b2 => !(pick b2).isEmpty) rest + 1 :=
        List.countP_cons_of_pos _ _ (by simp [hb])
      have hlen : (acc ++ [(pick b).getD (rng c % (pick b).length) ⟨0, 0, 0⟩]).length
          = acc.length + 1 := by simp
      simp only [uniformGo, if_neg hb]
      by_cases hstop : n ≤ acc.length + 1
      · rw [if_pos (show n ≤ (acc ++ [(pick b).getD (rng c % (pick b).length)
            ⟨0, 0, 0⟩]).length by rw [hlen]; exact hstop)]
        rw [hlen, hcnt]
        omega
      · rw [if_neg (show ¬ n ≤ (acc ++ [(pick b).getD (rng c % (pick b).length)
            ⟨0, 0, 0⟩]).length by rw [hlen]; exact hstop)]
        rw [uniformGo_length rng pick n rest (c + 1) _ (by rw [hlen]; omega)]
        rw [hlen, hcnt]
        omega

theorem uniformGo_mem (rng : ℕ → ℕ) (pick : ℕ × ℕ → List Row) (n : ℕ) :
    ∀ (ps : List (ℕ × ℕ)) (c : ℕ) (acc : List Row) (r : Row),
      r ∈ uniformGo rng c pick n acc ps →
      r ∈ acc ∨ ∃ b ∈ ps, r ∈ pick b
  | [], c, acc, r => by
    simp only [uniformGo]
    intro hr
    exact Or.inl hr
  | b :: rest, c, acc, r => by
    intro hr
    by_cases hb : (pick b).isEmpty = true
    · simp only [uniformGo, if_pos hb] at hr
      split at hr
      · exact Or.inl hr
      · rcases uniformGo_mem rng pick n rest c acc r hr with h1 | ⟨b2, hb2, hr2⟩
        · exact Or.inl h1
        · exact Or.inr ⟨b2, List.mem_cons_of_mem b hb2, hr2⟩
    · simp only [uniformGo, if_neg hb] at hr
      have hmem : ∀ s ∈ acc ++ [(pick b).getD (rng c % (pick b).length) ⟨0, 0, 0⟩],
          s ∈ acc ∨ ∃ b2 ∈ b :: rest, s ∈ pick b2 := by
        intro s hs
        rcases List.mem_append.mp hs with h1 | h1
        · exact Or.inl h1
        · have hseq : s = (pick b).getD (rng c % (pick b).length) ⟨0, 0, 0⟩ := by
            simpa using h1
          refine Or.inr ⟨b, List.mem_cons_self b rest, ?_⟩
          have hne : (pick b).length > 0 := by
            cases hpk : pick b with
            | nil => rw [hpk] at hb; simp at hb
            | cons a as => simp [hpk]
          rw [hseq, List.getD_eq_getElem _ _ (Nat.mod_lt _ hne)]
          exact List.getElem_mem _
      split at hr
      · exact hmem r hr
      · rcases uniformGo_mem rng pick n rest (c + 1) _ r hr with h1 | ⟨b2, hb2, hr2⟩
        · exact hmem r h1
        · exact Or.inr ⟨b2, List.mem_cons_of_mem b hb2, hr2⟩

theorem uniformSelect_length (rng : ℕ → ℕ) (dfValid : List Row) {n : ℕ}
    (hn : 1 ≤ n) :
    (uniformSelect rng dfValid n).length = min n (nonEmptyBinCount dfValid n) := by
  unfold uniformSelect nonEmptyBinCount
  rw [uniformGo_length rng _ n _ 0 [] (by simpa using hn)]
  simp

theorem uniformSelect_subset (rng : ℕ → ℕ) (dfValid : List Row) (n : ℕ) :
    ∀ r ∈ uniformSelect rng dfValid n, r ∈ dfValid := by
  intro r hr
  rcases uniformGo_mem rng _ n _ 0 [] r hr with h1 | ⟨b, _, hr2⟩
  · simp at h1
  · exact (List.mem_filter.mp hr2).1

theorem mem_filterValid_conc {minC : ℚ} {t : List Row} {r : Row}
    (h : r ∈ filterValid minC t) : minC ≤ r.conc := by
  have := (List.mem_filter.mp h).2
  simpa using this

theorem processSnapshot_empty (lib : ExtLib) (rng : ℕ → ℕ) (cfg : SampleConfig)
    {t : List Row} (h : filterValid cfg.min_concentration t = []) :
    processSnapshot lib rng cfg t = .skip := by
  simp only [processSnapshot, h]
  rfl

theorem processSnapshot_bad (lib : ExtLib) (rng : ℕ → ℕ) {cfg : SampleConfig}
    (h1 : cfg.sample_strategy ≠ lhsStrat) (h2 : cfg.sample_strategy ≠ randomStrat)
    (h3 : cfg.sample_strategy ≠ uniformStrat) {t : List Row}
    (hne : filterValid cfg.min_concentration t ≠ []) :
    processSnapshot lib rng cfg t = .abort .badStrategy := by
  simp only [processSnapshot]
  rw [if_neg (by simpa [List.length_eq_zero] using hne), if_neg h1, if_neg h2, if_neg h3]

theorem processSnapshot_random_rng (lib : ExtLib) {cfg : SampleConfig}
    (h : cfg.sample_strategy = randomStrat) (rng1 rng2 : ℕ → ℕ) (t : List Row) :
    processSnapshot lib rng1 cfg t = processSnapshot lib rng2 cfg t := by
  simp only [processSnapshot, h]
  by_cases hlen : (filterValid cfg.min_concentration t).length = 0
  · rw [if_pos hlen, if_pos hlen]
  · rw [if_neg hlen, if_neg hlen,
      if_neg (by decide : ¬ (randomStrat = lhsStrat)),
      if_neg (by decide : ¬ (randomStrat = lhsStrat))]
    simp

theorem processSnapshot_lhs (lib : ExtLib) (rng : ℕ → ℕ) {cfg : SampleConfig}
    (h : cfg.sample_strategy = lhsStrat) (t : List Row) :
    processSnapshot lib rng cfg t = .skip ∨
    processSnapshot lib rng cfg t =
      .wrote (lhsSelect lib rng (filterValid cfg.min_concentration t)
        (targetCount cfg (filterValid cfg.min_concentration t).length)) := by
  simp only [processSnapshot, h]
  by_cases hlen : (filterValid cfg.min_concentration t).length = 0
  · exact Or.inl (by rw [if_pos hlen])
  · refine Or.inr ?_
    rw [if_neg hlen]
    simp

theorem runSampler_lhs_total (lib : ExtLib) {cfg : SampleConfig}
    (h : cfg.sample_strategy = lhsStrat) :
    ∀ (snaps : List (List Row)) (rngs : ℕ → ℕ → ℕ),
      (runSampler lib rngs cfg snaps).err = none ∧
      (runSampler lib rngs cfg snaps).outputs.length +
        (runSampler lib rngs cfg snaps).warnings = snaps.length
  | [], _ => ⟨rfl, rfl⟩
  | t :: rest, rngs => by
    obtain ⟨he, hc⟩ := runSampler_lhs_total lib h rest (fun i => rngs (i + 1))
    rcases processSnapshot_lhs lib (rngs 0) h t with hp | hp
    · have hred : runSampler lib rngs cfg (t :: rest) =
          ⟨(runSampler lib (fun i => rngs (i + 1)) cfg rest).outputs,
            (runSampler lib (fun i => rngs (i + 1)) cfg rest).warnings + 1,
            (runSampler lib (fun i => rngs (i + 1)) cfg rest).err⟩ := by
        simp only [runSampler, hp]
      rw [hred]
      exact ⟨he, by simp only [List.length_cons]; omega⟩
    · have hred : runSampler lib rngs cfg (t :: rest) =
          ⟨lhsSelect lib (rngs 0) (filterValid cfg.min_concentration t)
              (targetCount cfg (filterValid cfg.min_concentration t).length) ::
              (runSampler lib (fun i => rngs (i + 1)) cfg rest).outputs,
            (runSampler lib (fun i => rngs (i + 1)) cfg rest).warnings,
            (runSampler lib (fun i => rngs (i + 1)) cfg rest).err⟩ := by
        simp only [runSampler, hp]
      rw [hred]
      exact ⟨he, by simp only [List.length_cons]; omega⟩

theorem foldl_add_map_sum {α : Type} (f : α → ℚ) :
    ∀ (l : List α) (a : ℚ), l.foldl (fun acc x => acc + f x) a = a + (l.map f).sum
  | [], a => by simp
  | x :: xs, a => by
    simp only [List.foldl_cons, List.map_cons, List.sum_cons]
    rw [foldl_add_map_sum f xs (a + f x)]
    ring

theorem zipzip_map_sum {α β γ : Type} (f : (α × β) × γ → ℚ) (da : α) (db : β) (dc : γ) :
    ∀ (n : ℕ) (as2 : List α) (bs : List β) (cs : List γ),
      as2.length = n → bs.length = n → cs.length = n →
      (((as2.zip bs).zip cs).map f).sum =
        ∑ i ∈ Finset.range n, f ((as2.getD i da, bs.getD i db), cs.getD i dc)
  | 0, as2, bs, cs, ha, hb, hc => by
    rw [List.length_eq_zero.mp ha]
    simp
  | n + 1, [], bs, cs, ha, hb, hc => by simp at ha
  | n + 1, a :: as2, [], cs, ha, hb, hc => by simp at hb
  | n + 1, a :: as2, b :: bs, [], ha, hb, hc => by simp at hc
  | n + 1, a :: as2, b :: bs, c :: cs, ha, hb, hc => by
    simp only [List.zip_cons_cons, List.map_cons, List.sum_cons]
    rw [Finset.sum_range_succ']
    simp only [List.getD_cons_succ, List.getD_cons_zero]
    rw [zipzip_map_sum f da db dc n as2 bs cs (by simpa using ha) (by simpa using hb)
      (by simpa using hc)]
    ring

theorem mem_fieldTable {p2 : Point2Fn} {cfg : ScenarioConfig} {t : ℚ} {r : Row}
    (h : r ∈ fieldTable p2 cfg t) :
    r.conc = totalConcAt p2 cfg t r.x r.y := by
  rcases List.mem_flatMap.mp h with ⟨y, _, hy⟩
  rcases List.mem_map.mp hy with ⟨x, _, hx⟩
  rw [← hx]

theorem create_ok_inv {p2 : Point2Fn} {cfg : ScenarioConfig} {out : ScenarioOutput}
    (h : create_contamination_scenario p2 cfg = .ok out) :
    cfg.c0_list.length = cfg.sources.length ∧
    cfg.Qa_list.length = cfg.sources.length ∧
    out.tables = cfg.obs_times.map (fun t => (t, fieldTable p2 cfg t)) := by
  unfold create_contamination_scenario at h
  split at h
  · exact absurd h (by simp)
  · split at h
    · exact absurd h (by simp)
    · rename_i h1 h2
      refine ⟨by omega, by omega, ?_⟩
      have := Except.ok.inj h
      rw [← this]

theorem libOK_default : LibOK defaultLib := by
  refine ⟨fun n => by simp [defaultLib], fun m n h => ?_, fun m n i hi => ?_, fun m n => ?_⟩
  · simp only [defaultLib, List.length_take, List.length_range]
    omega
  · have := (List.take_sublist n (List.range m)).subset hi
    exact List.mem_range.mp this
  · exact List.Nodup.sublist (List.take_sublist _ _) (List.nodup_range m)

/-!
### Claim theorems
-/

/-- Claim C6 (confirmed): whenever the source-coordinate, concentration and
injection-rate lists of a scenario do not all have equal length,
`create_contamination_scenario` raises a validation error before any
computation and produces none of its outputs (parameter log, tables, plots). -/
theorem c6_length_validation (p2 : Point2Fn) (cfg : ScenarioConfig)
    (h : cfg.c0_list.length ≠ cfg.sources.length ∨
      cfg.Qa_list.length ≠ cfg.sources.length) :
    (∃ e, create_contamination_scenario p2 cfg = .error e) ∧
    ∀ out, create_contamination_scenario p2 cfg ≠ .ok out := by
  unfold create_contamination_scenario
  by_cases h0 : cfg.c0_list.length ≠ cfg.sources.length
  · rw [if_pos h0]
    exact ⟨⟨_, rfl⟩, by simp⟩
  · have hq : cfg.Qa_list.length ≠ cfg.sources.length := by tauto
    rw [if_neg h0, if_pos hq]
    exact ⟨⟨_, rfl⟩, by simp⟩

/-- Witness for C6 at a concrete mismatched scenario: two concentrations,
one source. -/
theorem c6_witness :
    (∃ e, create_contamination_scenario p2Demo
      ⟨1, 0, 1, 1, 1, (0, 1), (0, 1), 2, [(0, 0)], [5, 7], [1], 10, [0]⟩ = .error e) ∧
    ∀ out, create_contamination_scenario p2Demo
      ⟨1, 0, 1, 1, 1, (0, 1), (0, 1), 2, [(0, 0)], [5, 7], [1], 10, [0]⟩ ≠ .ok out :=
  c6_length_validation p2Demo _ (Or.inl (by decide))

/-- Claim C2 (confirmed): for every scenario the generator accepts and every
observation time t > 0, every row of the written concentration table carries
the element-wise sum, over all configured sources, of the black-box
analytical solution evaluated with that source's own coordinate, initial
concentration and injection rate. -/
theorem c2_superposition (p2 : Point2Fn) (cfg : ScenarioConfig) (out : ScenarioOutput)
    (hok : create_contamination_scenario p2 cfg = .ok out)
    (t : ℚ) (ht : t ∈ cfg.obs_times) (htpos : 0 < t) :
    (t, fieldTable p2 cfg t) ∈ out.tables ∧
    ∀ r ∈ fieldTable p2 cfg t,
      r.conc = ∑ i ∈ Finset.range cfg.sources.length,
        p2 r.x r.y t (cfg.Kαα / cfg.θ) cfg.αL cfg.αT cfg.θ
          (cfg.sources.getD i (0, 0)).1 (cfg.sources.getD i (0, 0)).2
          (cfg.Qa_list.getD i 0) (cfg.c0_list.getD i 0) := by
  obtain ⟨hc0, hqa, htab⟩ := create_ok_inv hok
  constructor
  · rw [htab]
    exact List.mem_map.mpr ⟨t, ht, rfl⟩
  · intro r hr
    rw [mem_fieldTable hr]
    unfold totalConcAt
    rw [if_neg (ne_of_gt htpos)]
    rw [foldl_add_map_sum, zero_add,
      zipzip_map_sum _ ((0 : ℚ), (0 : ℚ)) (0 : ℚ) (0 : ℚ) cfg.sources.length
        cfg.sources cfg.c0_list cfg.Qa_list rfl hc0 hqa]

/-- Witness for C2 at the two-source demo scenario and time 3. -/
theorem c2_witness :
    ((3 : ℚ), fieldTable p2Demo cfgGenDemo 3) ∈ outGenDemo.tables ∧
    ∀ r ∈ fieldTable p2Demo cfgGenDemo 3,
      r.conc = ∑ i ∈ Finset.range cfgGenDemo.sources.length,
        p2Demo r.x r.y 3 (cfgGenDemo.Kαα / cfgGenDemo.θ) cfgGenDemo.αL cfgGenDemo.αT
          cfgGenDemo.θ (cfgGenDemo.sources.getD i (0, 0)).1
          (cfgGenDemo.sources.getD i (0, 0)).2
          (cfgGenDemo.Qa_list.getD i 0) (cfgGenDemo.c0_list.getD i 0) :=
  c2_superposition p2Demo cfgGenDemo outGenDemo rfl 3 (by decide) (by norm_num)

/-- Claim C8 (confirmed): for every accepted scenario whose observation-time
list contains time zero, the written time-zero table is exactly zero at every
grid point, and the time-zero field is the same whatever the black-box solver
is (no superposition is computed for it). -/
theorem c8_time_zero (p2 q2 : Point2Fn) (cfg : ScenarioConfig) (out : ScenarioOutput)
    (hok : create_contamination_scenario p2 cfg = .ok out)
    (h0 : (0 : ℚ) ∈ cfg.obs_times) :
    ((0 : ℚ), fieldTable p2 cfg 0) ∈ out.tables ∧
    (∀ r ∈ fieldTable p2 cfg 0, r.conc = 0) ∧
    fieldTable p2 cfg 0 = fieldTable q2 cfg 0 := by
  obtain ⟨hc0, hqa, htab⟩ := create_ok_inv hok
  refine ⟨?_, ?_, ?_⟩
  · rw [htab]
    exact List.mem_map.mpr ⟨0, h0, rfl⟩
  · intro r hr
    rw [mem_fieldTable hr]
    unfold totalConcAt
    rw [if_pos rfl]
  · simp [fieldTable, totalConcAt]

/-- Witness for C8 at the demo scenario, with two different demo solvers. -/
theorem c8_witness :
    ((0 : ℚ), fieldTable p2Demo cfgGenDemo 0) ∈ outGenDemo.tables ∧
    (∀ r ∈ fieldTable p2Demo cfgGenDemo 0, r.conc = 0) ∧
    fieldTable p2Demo cfgGenDemo 0 = fieldTable p2DemoShift cfgGenDemo 0 :=
  c8_time_zero p2Demo p2DemoShift cfgGenDemo outGenDemo rfl (by decide)

/-- Claim C7 (confirmed): every row of a written sampler output table has
concentration at least the configured minimum threshold (rows below it are
discarded before selection), whatever the strategy. -/
theorem c7_threshold (lib : ExtLib) (rng : ℕ → ℕ) (cfg : SampleConfig)
    (table : List Row) (out : List Row)
    (h : (processSnapshot lib rng cfg table).written = some out) :
    ∀ r ∈ out, cfg.min_concentration ≤ r.conc := by
  intro r hr
  refine mem_filterValid_conc (t := table) ?_
  simp only [processSnapshot] at h
  split at h
  · simp [SnapResult.written] at h
  · split at h
    · simp only [SnapResult.written] at h
      have h2 := Option.some.inj h
      subst h2
      exact lhsSelect_subset _ _ _ _ r hr
    · split at h
      · simp only [SnapResult.written] at h
        have h2 := Option.some.inj h
        subst h2
        exact randomSelect_subset _ _ _ r hr
      · split at h
        · simp only [SnapResult.written] at h
          have h2 := Option.some.inj h
          subst h2
          exact uniformSelect_subset _ _ _ r hr
        · simp [SnapResult.written] at h

unseal Rat.mul Rat.add Rat.sub Rat.inv in
/-- Witness for C7: a snapshot with a below-threshold row; the row (2, 0, 2)
of the written output meets the threshold 1. -/
theorem c7_witness :
    (⟨lhsStrat, 1/100, some 2, 1⟩ : SampleConfig).min_concentration ≤
      (⟨2, 0, 2⟩ : Row).conc :=
  c7_threshold defaultLib (fun _ => 0) ⟨lhsStrat, 1/100, some 2, 1⟩
    [⟨0, 0, 5⟩, ⟨1, 0, 0⟩, ⟨2, 0, 2⟩] [⟨0, 0, 5⟩, ⟨2, 0, 2⟩] (by decide)
    ⟨2, 0, 2⟩ (by decide)

/-- Claim C9 (confirmed): a snapshot with no row meeting the threshold is
skipped with a warning — no table is written for it — and the remaining
snapshots are processed unchanged. -/
theorem c9_empty_skip (lib : ExtLib) (rngs : ℕ → ℕ → ℕ) (cfg : SampleConfig)
    (t : List Row) (rest : List (List Row))
    (h : filterValid cfg.min_concentration t = []) :
    processSnapshot lib (rngs 0) cfg t = .skip ∧
    runSampler lib rngs cfg (t :: rest) =
      ⟨(runSampler lib (fun i => rngs (i + 1)) cfg rest).outputs,
        (runSampler lib (fun i => rngs (i + 1)) cfg rest).warnings + 1,
        (runSampler lib (fun i => rngs (i + 1)) cfg rest).err⟩ := by
  refine ⟨processSnapshot_empty lib (rngs 0) cfg h, ?_⟩
  simp only [runSampler, processSnapshot_empty lib (rngs 0) cfg h]

/-- Witness for C9: an all-below-threshold snapshot followed by a good one. -/
theorem c9_witness :
    processSnapshot defaultLib ((fun _ _ => 0) 0) ⟨lhsStrat, 1/100, some 2, 1⟩
      [⟨0, 0, 0⟩] = .skip ∧
    runSampler defaultLib (fun _ _ => 0) ⟨lhsStrat, 1/100, some 2, 1⟩
      [[⟨0, 0, 0⟩], [⟨0, 0, 5⟩]] =
      ⟨(runSampler defaultLib (fun i => (fun _ _ => 0) (i + 1)) ⟨lhsStrat, 1/100, some 2, 1⟩
          [[⟨0, 0, 5⟩]]).outputs,
        (runSampler defaultLib (fun i => (fun _ _ => 0) (i + 1)) ⟨lhsStrat, 1/100, some 2, 1⟩
          [[⟨0, 0, 5⟩]]).warnings + 1,
        (runSampler defaultLib (fun i => (fun _ _ => 0) (i + 1)) ⟨lhsStrat, 1/100, some 2, 1⟩
          [[⟨0, 0, 5⟩]]).err⟩ :=
  c9_empty_skip defaultLib (fun _ _ => 0) ⟨lhsStrat, 1/100, some 2, 1⟩
    [⟨0, 0, 0⟩] [[⟨0, 0, 5⟩]] (by decide)

/-- Claim C5 (confirmed): under the Latin-hypercube strategy the selected
row indices are duplicate-free and all point into the post-filter valid
table, in both the truncation and the deduplication-plus-backfill branch. -/
theorem c5_lhs_subset_nodup (lib : ExtLib) (rng : ℕ → ℕ) (minC : ℚ)
    (table : List Row) (n : ℕ) (h : filterValid minC table ≠ []) :
    (lhsIndices lib rng (filterValid minC table) n).Nodup ∧
    ∀ i ∈ lhsIndices lib rng (filterValid minC table) n,
      i < (filterValid minC table).length :=
  ⟨lhsIndices_nodup lib rng _ n, lhsIndices_lt h lib rng n⟩

unseal Rat.mul Rat.add Rat.sub Rat.inv in
/-- Witness for C5 on a run in which the backfill branch fires: the three
demo LHS points all collapse to index 0, and indices 1 and 2 are backfilled. -/
theorem c5_witness :
    ((lhsIndices defaultLib (fun i => i) (filterValid 0 tbl3) 3).Nodup ∧
      ∀ i ∈ lhsIndices defaultLib (fun i => i) (filterValid 0 tbl3) 3,
        i < (filterValid 0 tbl3).length) ∧
    lhsIndices defaultLib (fun i => i) (filterValid 0 tbl3) 3 = [0, 1, 2] :=
  ⟨c5_lhs_subset_nodup defaultLib (fun i => i) 0 tbl3 3 (by decide), by decide⟩

/-- Claim C3 (corrected): determinism holds for the random strategy — the
whole run is a pure function of the input tables and the configuration,
independent of the ambient unseeded RNG — but not for the uniform strategy,
whose `bin_df.sample(1)` has no seed (see the counterexample). -/
theorem c3_random_deterministic (lib : ExtLib) (cfg : SampleConfig)
    (h : cfg.sample_strategy = randomStrat) :
    ∀ (snaps : List (List Row)) (rngs1 rngs2 : ℕ → ℕ → ℕ),
      runSampler lib rngs1 cfg snaps = runSampler lib rngs2 cfg snaps
  | [], _, _ => rfl
  | t :: rest, rngs1, rngs2 => by
    have hps := processSnapshot_random_rng lib h (rngs1 0) (rngs2 0) t
    have ih := c3_random_deterministic lib cfg h rest (fun i => rngs1 (i + 1))
      (fun i => rngs2 (i + 1))
    simp only [runSampler, hps, ih]

unseal Rat.mul Rat.add Rat.sub Rat.inv in
/-- Counterexample to C3 as stated: with the uniform strategy, identical
input and configuration, two ambient-RNG states lead to different outputs
(`bin_df.sample(1)` on line 89 of sample.py carries no random_state). -/
theorem c3_counterexample :
    runSampler defaultLib (fun _ _ => 0) ⟨uniformStrat, 1/100, some 1, 0⟩
      [[⟨0, 0, 5⟩, ⟨10, 0, 7⟩]] ≠
    runSampler defaultLib (fun _ _ => 1) ⟨uniformStrat, 1/100, some 1, 0⟩
      [[⟨0, 0, 5⟩, ⟨10, 0, 7⟩]] := by
  decide

/-- Witness for the corrected C3: a random-strategy run under two different
ambient RNG states produces identical output. -/
theorem c3_witness :
    runSampler defaultLib (fun _ _ => 0) ⟨randomStrat, 1/100, some 2, 0⟩ [tbl3] =
    runSampler defaultLib (fun _ _ => 5) ⟨randomStrat, 1/100, some 2, 0⟩ [tbl3] :=
  c3_random_deterministic defaultLib ⟨randomStrat, 1/100, some 2, 0⟩ rfl
    [tbl3] (fun _ _ => 0) (fun _ _ => 5)

/-- Claim C4 (corrected): with a strategy name other than lhs/random/uniform
no output table is ever written, and the `ValueError` is raised at the first
snapshot that still has valid rows after filtering — so if every snapshot is
empty after filtering (or there are no snapshots), no error is raised at all,
contrary to the claim as stated. -/
theorem c4_unknown_strategy (lib : ExtLib) (cfg : SampleConfig)
    (h1 : cfg.sample_strategy ≠ lhsStrat) (h2 : cfg.sample_strategy ≠ randomStrat)
    (h3 : cfg.sample_strategy ≠ uniformStrat) :
    ∀ (snaps : List (List Row)) (rngs : ℕ → ℕ → ℕ),
      (runSampler lib rngs cfg snaps).outputs = [] ∧
      ((runSampler lib rngs cfg snaps).err = some .badStrategy ↔
        ∃ t ∈ snaps, filterValid cfg.min_concentration t ≠ [])
  | [], rngs => ⟨rfl, by simp [runSampler]⟩
  | t :: rest, rngs => by
    by_cases hv : filterValid cfg.min_concentration t = []
    · have hred : runSampler lib rngs cfg (t :: rest) =
          ⟨(runSampler lib (fun i => rngs (i + 1)) cfg rest).outputs,
            (runSampler lib (fun i => rngs (i + 1)) cfg rest).warnings + 1,
            (runSampler lib (fun i => rngs (i + 1)) cfg rest).err⟩ := by
        simp only [runSampler, processSnapshot_empty lib (rngs 0) cfg hv]
      obtain ⟨ho, he⟩ := c4_unknown_strategy lib cfg h1 h2 h3 rest (fun i => rngs (i + 1))
      rw [hred]
      refine ⟨ho, ?_⟩
      show (runSampler lib (fun i => rngs (i + 1)) cfg rest).err = some .badStrategy ↔ _
      rw [he]
      constructor
      · rintro ⟨t2, ht2, hne⟩
        exact ⟨t2, List.mem_cons_of_mem t ht2, hne⟩
      · rintro ⟨t2, ht2, hne⟩
        rcases List.mem_cons.mp ht2 with hteq | h4
        · exact absurd (hteq ▸ hv) hne
        · exact ⟨t2, h4, hne⟩
    · have hred : runSampler lib rngs cfg (t :: rest) = ⟨[], 0, some .badStrategy⟩ := by
        simp only [runSampler, processSnapshot_bad lib (rngs 0) h1 h2 h3 hv]
      rw [hred]
      exact ⟨rfl, ⟨fun _ => ⟨t, List.mem_cons_self t rest, hv⟩, fun _ => rfl⟩⟩

unseal Rat.mul Rat.add Rat.sub Rat.inv in
/-- Counterexample to C4 as stated: with the unknown strategy "foo" and one
snapshot whose only row is below the threshold, the invocation ends with a
warning and *no* error (the strategy check of line 95 sits inside the
per-file loop, after filtering, and is never reached). -/
theorem c4_counterexample :
    (['f', 'o', 'o'] : List Char) ≠ lhsStrat ∧
    (['f', 'o', 'o'] : List Char) ≠ randomStrat ∧
    (['f', 'o', 'o'] : List Char) ≠ uniformStrat ∧
    runSampler defaultLib (fun _ _ => 0) ⟨['f', 'o', 'o'], 1/100, some 2, 1⟩
      [[⟨0, 0, 0⟩]] = ⟨[], 1, none⟩ := by
  decide

/-- Witness for the corrected C4: with a snapshot that does have valid rows,
the error is raised and still nothing is written. -/
theorem c4_witness :
    (runSampler defaultLib (fun _ _ => 0) ⟨['f', 'o', 'o'], 1/100, some 2, 0⟩
      [tbl3]).outputs = [] ∧
    ((runSampler defaultLib (fun _ _ => 0) ⟨['f', 'o', 'o'], 1/100, some 2, 0⟩
      [tbl3]).err = some .badStrategy ↔
      ∃ t ∈ [tbl3],
        filterValid (⟨['f', 'o', 'o'], 1/100, some 2, 0⟩ : SampleConfig).min_concentration
          t ≠ []) :=
  c4_unknown_strategy defaultLib ⟨['f', 'o', 'o'], 1/100, some 2, 0⟩
    (by decide) (by decide) (by decide) [tbl3] (fun _ _ => 0)

/-- Claim C1 (corrected): when the requested count is positive and does not
exceed the number of valid rows, a written output table has exactly the
requested count of rows under the lhs and random strategies; under the
uniform strategy it has `min(requested, number of non-empty bins)` rows,
which can fall short of the requested count. -/
theorem c1_sample_count (lib : ExtLib) (hlib : LibOK lib) (rng : ℕ → ℕ)
    (cfg : SampleConfig) (table : List Row) (out : List Row)
    (hn : targetCount cfg (filterValid cfg.min_concentration table).length ≤
      (filterValid cfg.min_concentration table).length)
    (h1 : 1 ≤ targetCount cfg (filterValid cfg.min_concentration table).length)
    (h : (processSnapshot lib rng cfg table).written = some out) :
    ((cfg.sample_strategy = lhsStrat ∨ cfg.sample_strategy = randomStrat) →
      out.length = targetCount cfg (filterValid cfg.min_concentration table).length) ∧
    (cfg.sample_strategy = uniformStrat →
      out.length = min (targetCount cfg (filterValid cfg.min_concentration table).length)
        (nonEmptyBinCount (filterValid cfg.min_concentration table)
          (targetCount cfg (filterValid cfg.min_concentration table).length))) := by
  simp only [processSnapshot] at h
  split at h
  · simp [SnapResult.written] at h
  · rename_i hlen
    have hne : filterValid cfg.min_concentration table ≠ [] := by
      intro h0
      rw [h0] at hlen
      exact hlen rfl
    split at h
    · rename_i hstr
      simp only [SnapResult.written] at h
      have h2 := Option.some.inj h
      subst h2
      refine ⟨fun _ => lhsSelect_length hne lib rng (hlib.lhs_len _) hn, fun hu => ?_⟩
      rw [hstr] at hu
      exact absurd hu (by decide)
    · split at h
      · rename_i hstr
        simp only [SnapResult.written] at h
        have h2 := Option.some.inj h
        subst h2
        refine ⟨fun _ => randomSelect_length hlib _ hn, fun hu => ?_⟩
        rw [hstr] at hu
        exact absurd hu (by decide)
      · split at h
        · rename_i hstr
          simp only [SnapResult.written] at h
          have h2 := Option.some.inj h
          subst h2
          refine ⟨fun hor => ?_, fun _ => uniformSelect_length rng _ h1⟩
          rcases hor with h4 | h4 <;> rw [hstr] at h4 <;> exact absurd h4 (by decide)
        · simp [SnapResult.written] at h

unseal Rat.mul Rat.add Rat.sub Rat.inv Nat.sqrt.iter in
/-- Counterexample to C1 as stated: uniform strategy, three valid rows,
requested count 2 — the written table has a single row, because
`int(sqrt(2)) = 1` yields one bin and the loop stops after one draw per
non-empty bin. -/
theorem c1_counterexample :
    (processSnapshot defaultLib (fun _ => 0) ⟨uniformStrat, 1/100, some 2, 0⟩
      tbl3).written = some [⟨0, 0, 1⟩] ∧
    targetCount ⟨uniformStrat, 1/100, some 2, 0⟩ (filterValid 0 tbl3).length = 2 ∧
    (filterValid 0 tbl3).length = 3 ∧
    ([(⟨0, 0, 1⟩ : Row)]).length ≠ 2 := by
  decide

unseal Rat.mul Rat.add Rat.sub Rat.inv in
/-- Witness for the corrected C1: an lhs run on three valid rows with
requested count 2 writes exactly 2 rows. -/
theorem c1_witness :
    ((cfgLhsDemo.sample_strategy = lhsStrat ∨ cfgLhsDemo.sample_strategy = randomStrat) →
      ([⟨0, 0, 1⟩, ⟨1, 0, 1⟩] : List Row).length =
        targetCount cfgLhsDemo (filterValid cfgLhsDemo.min_concentration tbl3).length) ∧
    (cfgLhsDemo.sample_strategy = uniformStrat →
      ([⟨0, 0, 1⟩, ⟨1, 0, 1⟩] : List Row).length =
        min (targetCount cfgLhsDemo (filterValid cfgLhsDemo.min_concentration tbl3).length)
          (nonEmptyBinCount (filterValid cfgLhsDemo.min_concentration tbl3)
            (targetCount cfgLhsDemo (filterValid cfgLhsDemo.min_concentration tbl3).length))) :=
  c1_sample_count defaultLib libOK_default (fun _ => 0) cfgLhsDemo tbl3
    [⟨0, 0, 1⟩, ⟨1, 0, 1⟩] (by decide) (by decide) (by decide)

/-- Claim C10 (corrected): the invocation examines exactly the files whose
names start with 全局浓度_ and end with .csv, sorted ascending by the
integer time embedded in the filename, and one matching filename with a
non-integer time token makes it fail before any snapshot is processed.
Under the lhs strategy every matching file is then processed in that order
(each contributes one written table or one skip warning, and no error);
under the random and uniform strategies the invocation aborts right after
writing its first non-empty snapshot (see the counterexample), so later
matching files are not processed. -/
theorem c10_file_discovery (lib : ExtLib) (rngs : ℕ → ℕ → ℕ) (cfg : SampleConfig)
    (dir : List (List Char × List Row)) :
    ((∀ f ∈ (dir.map Prod.fst).filter matchesGc, (timeKey f).isSome = true) →
      ∃ l, listGcFiles (dir.map Prod.fst) = .ok l ∧
        l.Perm ((dir.map Prod.fst).filter matchesGc) ∧
        l.Sorted keyLE ∧
        sample_sparse_data lib rngs cfg dir =
          runSampler lib rngs cfg
            (l.map (fun f => ((dir.find? (fun p => p.1 = f)).map Prod.snd).getD [])) ∧
        (cfg.sample_strategy = lhsStrat →
          (sample_sparse_data lib rngs cfg dir).err = none ∧
          (sample_sparse_data lib rngs cfg dir).outputs.length +
            (sample_sparse_data lib rngs cfg dir).warnings = l.length)) ∧
    ((∃ f ∈ (dir.map Prod.fst).filter matchesGc, timeKey f = none) →
      sample_sparse_data lib rngs cfg dir = ⟨[], 0, some .badTimeToken⟩) := by
  constructor
  · intro h
    have hall : ((dir.map Prod.fst).filter matchesGc).all
        (fun f => (timeKey f).isSome) = true :=
      List.all_eq_true.mpr h
    have hok : listGcFiles (dir.map Prod.fst) =
        .ok (((dir.map Prod.fst).filter matchesGc).insertionSort keyLE) := by
      simp only [listGcFiles, if_pos hall]
    have hrun : sample_sparse_data lib rngs cfg dir =
        runSampler lib rngs cfg
          ((((dir.map Prod.fst).filter matchesGc).insertionSort keyLE).map
            (fun f => ((dir.find? (fun p => p.1 = f)).map Prod.snd).getD [])) := by
      simp only [sample_sparse_data, hok]
    refine ⟨_, hok, List.perm_insertionSort keyLE _,
      List.sorted_insertionSort keyLE _, hrun, ?_⟩
    intro hstr
    rw [hrun]
    obtain ⟨he, hc⟩ := runSampler_lhs_total lib hstr
      ((((dir.map Prod.fst).filter matchesGc).insertionSort keyLE).map
        (fun f => ((dir.find? (fun p => p.1 = f)).map Prod.snd).getD [])) rngs
    exact ⟨he, by rw [hc, List.length_map]⟩
  · rintro ⟨f, hf, hnone⟩
    have hall : ¬ (((dir.map Prod.fst).filter matchesGc).all
        (fun f => (timeKey f).isSome) = true) := by
      intro hc
      have := List.all_eq_true.mp hc f hf
      rw [hnone] at this
      exact absurd this (by decide)
    have herr : listGcFiles (dir.map Prod.fst) = .error .badTimeToken := by
      simp only [listGcFiles, if_neg hall]
    simp only [sample_sparse_data, herr]

unseal Rat.mul Rat.add Rat.sub Rat.inv in
/-- Counterexample to C10 as stated: `dirGood` holds two matching snapshots,
both with valid rows, yet a random-strategy invocation writes only the
time-1 table and then aborts with the `UnboundLocalError` of line 105 — the
time-30 file is never processed, so the sampler does not process all
matching files. -/
theorem c10_counterexample :
    ((dirGood.map Prod.fst).filter matchesGc).length = 2 ∧
    sample_sparse_data defaultLib (fun _ _ => 0) ⟨randomStrat, 1/100, some 1, 0⟩
      dirGood = ⟨[[⟨0, 0, 5⟩]], 0, some .unboundLocal⟩ ∧
    (sample_sparse_data defaultLib (fun _ _ => 0) ⟨randomStrat, 1/100, some 1, 0⟩
        dirGood).outputs.length +
      (sample_sparse_data defaultLib (fun _ _ => 0) ⟨randomStrat, 1/100, some 1, 0⟩
        dirGood).warnings ≠ 2 := by
  decide

/-- Witness for the corrected C10: under the lhs strategy, the out-of-order
directory is filtered, re-sorted ascending, and every matching file is
processed; the directory with the unparsable name 全局浓度_a天.csv makes the
whole invocation fail with no output. -/
theorem c10_witness :
    (∃ l, listGcFiles (dirGood.map Prod.fst) = .ok l ∧
      l.Perm ((dirGood.map Prod.fst).filter matchesGc) ∧
      l.Sorted keyLE ∧
      sample_sparse_data defaultLib (fun _ _ => 0) cfgLhsDemo dirGood =
        runSampler defaultLib (fun _ _ => 0) cfgLhsDemo
          (l.map (fun f => ((dirGood.find? (fun p => p.1 = f)).map Prod.snd).getD [])) ∧
      (cfgLhsDemo.sample_strategy = lhsStrat →
        (sample_sparse_data defaultLib (fun _ _ => 0) cfgLhsDemo dirGood).err = none ∧
        (sample_sparse_data defaultLib (fun _ _ => 0) cfgLhsDemo dirGood).outputs.length +
          (sample_sparse_data defaultLib (fun _ _ => 0) cfgLhsDemo dirGood).warnings =
            l.length)) ∧
    sample_sparse_data defaultLib (fun _ _ => 0) cfgLhsDemo dirBad =
      ⟨[], 0, some .badTimeToken⟩ :=
  ⟨(c10_file_discovery defaultLib (fun _ _ => 0) cfgLhsDemo dirGood).1 (by decide),
    (c10_file_discovery defaultLib (fun _ _ => 0) cfgLhsDemo dirBad).2 (by decide)⟩
